import Mathlib

/-!
Verification of the repository-tree synchronization and selection engine of the
`github_pull` UI against its specification.

The development shallowly embeds the core logic of the two files

  * `src/ui/src/components/Pull_comp.tsx` — tree flattening (`getAllFiles`),
    path categorization (`getFileCategory`), sorting (`sortFiles`, plus the
    pairwise comparator used to order the displayed list), and the RepoCard
    pull-button click handler;
  * `src/ui/src/utils/Pull_util.ts` — the zustand store (`PullStore`): its
    initial state and the `fetchBranches`, `fetchRepo`, `reset` and `pullFiles`
    operations.

Modelling conventions:
  * Asynchronous operations are modelled as pure transitions on the store
    state.  The outcome of `await fetch(...)` followed by
    `await response.json()` is a value of `JsResult (HttpResponse α)`:
    `JsResult.thrown` models a rejected `fetch`, `HttpResponse.json` records
    whether the body parse succeeded (`response.ok` is carried along because
    the code never inspects it).  `α` is the shape of the parsed body.
  * `toast.*` calls are modelled as a list of emitted notification strings;
    issuing a network request is modelled by returning the request body.
  * JavaScript string truthiness (`error.message || fallback`, `!file.parent_path`)
    is modelled explicitly: `none` and the empty string are falsy.
  * `Array.prototype.sort` (stable per ES2019) is modelled as a stable
    insertion sort that keeps the earlier element when the comparator returns
    a value ≤ 0; `String.prototype.localeCompare` is modelled as three-valued
    code-point lexicographic comparison.
-/

namespace GithubPull

/-- FileInfo (Pull_comp.tsx lines 15-22): one node of the repository tree.
`children` makes the type a nested inductive, so it is declared with a single
constructor and explicit projections. -/
inductive FileInfo where
  | mk (name path type : String) (download_url parent_path : Option String)
       (children : List FileInfo)

def FileInfo.name : FileInfo → String
  | .mk n _ _ _ _ _ => n

def FileInfo.path : FileInfo → String
  | .mk _ p _ _ _ _ => p

def FileInfo.type : FileInfo → String
  | .mk _ _ t _ _ _ => t

def FileInfo.download_url : FileInfo → Option String
  | .mk _ _ _ d _ _ => d

def FileInfo.parent_path : FileInfo → Option String
  | .mk _ _ _ _ pp _ => pp

def FileInfo.children : FileInfo → List FileInfo
  | .mk _ _ _ _ _ c => c

mutual
def decEqFI : (a b : FileInfo) → Decidable (a = b)
  | .mk n p t d pp c, .mk n' p' t' d' pp' c' =>
    if h1 : n = n' then
      if h2 : p = p' then
        if h3 : t = t' then
          if h4 : d = d' then
            if h5 : pp = pp' then
              match decEqFIList c c' with
              | isTrue h6 => isTrue (by rw [h1, h2, h3, h4, h5, h6])
              | isFalse h6 => isFalse (by intro h; injection h; contradiction)
            else isFalse (by intro h; injection h; contradiction)
          else isFalse (by intro h; injection h; contradiction)
        else isFalse (by intro h; injection h; contradiction)
      else isFalse (by intro h; injection h; contradiction)
    else isFalse (by intro h; injection h; contradiction)
def decEqFIList : (xs ys : List FileInfo) → Decidable (xs = ys)
  | [], [] => isTrue rfl
  | [], _ :: _ => isFalse (by intro h; injection h)
  | _ :: _, [] => isFalse (by intro h; injection h)
  | x :: xs, y :: ys =>
    match decEqFI x y, decEqFIList xs ys with
    | isTrue h1, isTrue h2 => isTrue (by rw [h1, h2])
    | isFalse h1, _ => isFalse (by intro h; injection h; contradiction)
    | _, isFalse h2 => isFalse (by intro h; injection h; contradiction)
end

instance : DecidableEq FileInfo := decEqFI

/-- RepoData (Pull_comp.tsx lines 24-35 / `RepoResponse` in Pull_util.ts):
one fetched repository snapshot. -/
structure RepoData where
  name : String
  full_name : String
  description : Option String
  stars : Int
  forks : Int
  language : Option String
  owner_avatar : String
  html_url : String
  contents : List FileInfo
  timestamp : Option String
deriving DecidableEq

/- getAllFiles (Pull_comp.tsx lines 45-56): pre-order flattening of one tree
node to its `file`-kind descendants.  `getAllFilesList` is the inlined
`for (const child of file.children) files = files.concat(getAllFiles(child))`
loop, and also serves as `roots.flatMap(getAllFiles)`. -/
mutual
def getAllFiles : FileInfo → List FileInfo
  | .mk n p t d pp children =>
    (if t = "file" then [FileInfo.mk n p t d pp children] else []) ++
      getAllFilesList children
def getAllFilesList : List FileInfo → List FileInfo
  | [] => []
  | c :: cs => getAllFiles c ++ getAllFilesList cs
end

/- Pre-order traversal of all nodes of a tree, modelled from the spec's words
(§4.1: "every descendant ..., in pre-order traversal (parent before children,
children in their given order)").  Reference point for the refinement claim
about `getAllFiles`. -/
mutual
def preorderNodes : FileInfo → List FileInfo
  | .mk n p t d pp children =>
    FileInfo.mk n p t d pp children :: preorderNodesList children
def preorderNodesList : List FileInfo → List FileInfo
  | [] => []
  | c :: cs => preorderNodes c ++ preorderNodesList cs
end

/-- Test whether the character list `pat` occurs as a prefix of `text`. -/
def charsBeginWith : List Char → List Char → Bool
  | [], _ => true
  | _ :: _, [] => false
  | p :: ps, c :: cs => p == c && charsBeginWith ps cs

/-- Test whether the character list `pat` occurs contiguously inside `text`. -/
def occursIn (pat : List Char) : List Char → Bool
  | [] => pat.isEmpty
  | c :: cs => charsBeginWith pat (c :: cs) || occursIn pat cs

/-- JavaScript `s.includes(pat)`: contiguous substring containment. -/
def jsIncludes (s pat : String) : Bool := occursIn pat.data s.data

/-- getFileCategory (Pull_comp.tsx lines 58-64). -/
def getFileCategory (path : String) : String :=
  if jsIncludes path "/apis/" then "backend"
  else if jsIncludes path "/components/" then "component"
  else if jsIncludes path "/utils/" then "util"
  else if jsIncludes path "/pages/" then "page"
  else "other"

/-- Ordered priority table of categorization rules, modelled from the spec's
words (§4.2, §9: "an explicit first-match ordered rule list (priority table)";
"contains an 'apis' segment" is the substring test for `"/apis/"`, the spec's
stated mechanism being "substring containment tests on the path"). -/
def categoryRules : List (String × String) :=
  [("/apis/", "backend"), ("/components/", "component"),
   ("/utils/", "util"), ("/pages/", "page")]

/-- First-match evaluation of the categorization priority table, modelled from
the spec's words (§4.2: "evaluated in a fixed priority order (first match
wins)", defaulting to `other`). -/
def firstMatchCategory (path : String) : String :=
  match categoryRules.find? (fun rule => jsIncludes path rule.1) with
  | some rule => rule.2
  | none => "other"

/-- Three-valued code-point comparison of character lists (the model of
`String.prototype.localeCompare`). -/
def strCmpChars : List Char → List Char → Int
  | [], [] => 0
  | [], _ :: _ => -1
  | _ :: _, [] => 1
  | a :: as, b :: bs => if a < b then -1 else if b < a then 1 else strCmpChars as bs

/-- Model of `a.localeCompare(b)`. -/
def localeCompare (s t : String) : Int := strCmpChars s.data t.data

/-- SortColumn (Pull_comp.tsx line 66). -/
inductive SortColumn where
  | name
  | path
  | category
deriving DecidableEq

/-- SortDirection (Pull_comp.tsx line 67). -/
inductive SortDirection where
  | asc
  | desc
deriving DecidableEq

/-- SortConfig (Pull_comp.tsx lines 69-72). -/
structure SortConfig where
  column : SortColumn
  direction : SortDirection
deriving DecidableEq

/-- The comparator closure passed to `.sort` inside sortFiles
(Pull_comp.tsx lines 95-108). -/
def sortFilesCompare (sortConfig : SortConfig) (a b : FileInfo) : Int :=
  let compareResult : Int :=
    match sortConfig.column with
    | .name => localeCompare a.name b.name
    | .path => localeCompare a.path b.path
    | .category => localeCompare (getFileCategory a.path) (getFileCategory b.path)
  match sortConfig.direction with
  | .asc => compareResult
  | .desc => -compareResult

/-- Stable insertion of `a` into `l`: `a` is placed before the first element
`b` with `cmp a b ≤ 0`. -/
def insertCmp (cmp : α → α → Int) (a : α) : List α → List α
  | [] => [a]
  | b :: bs => if cmp a b ≤ 0 then a :: b :: bs else b :: insertCmp cmp a bs

/-- Model of the stable `Array.prototype.sort(cmp)` (ES2019): a stable
insertion sort keeping the earlier element when `cmp` returns ≤ 0. -/
def jsSort (cmp : α → α → Int) : List α → List α
  | [] => []
  | a :: as => insertCmp cmp a (jsSort cmp as)

/-- sortFiles (Pull_comp.tsx lines 94-110): `[...files].sort(comparator)`. -/
def sortFiles (files : List FileInfo) (sortConfig : SortConfig) : List FileInfo :=
  jsSort (sortFilesCompare sortConfig) files

/-- The pairwise comparator used to order the displayed flattened list
(Pull_comp.tsx line 233): `(a, b) => sortFiles([a, b], sortConfig)[0] === a ? -1 : 1`. -/
def displayedCompare (sortConfig : SortConfig) (a b : FileInfo) : Int :=
  if (sortFiles [a, b] sortConfig).head? = some a then -1 else 1

/-- The ordering applied to the displayed list (Pull_comp.tsx lines 231-233):
`.sort` with the pairwise `displayedCompare` comparator. -/
def displayedSort (files : List FileInfo) (sortConfig : SortConfig) : List FileInfo :=
  jsSort (displayedCompare sortConfig) files

/-- The sort key of a file for a given column (the string whose
`localeCompare` drives `sortFilesCompare`); used to state stability. -/
def sortKey (column : SortColumn) (f : FileInfo) : String :=
  match column with
  | .name => f.name
  | .path => f.path
  | .category => getFileCategory f.path

/-- PullStore state (Pull_util.ts lines 8-21, state fields only). -/
structure PullStore where
  branches : List String
  selectedBranch : String
  isPulling : Bool
  isLoading : Bool
  error : Option String
  repoData : Option RepoData
deriving DecidableEq

/-- Initial store state (Pull_util.ts lines 24-25, 51-54). -/
def initialStore : PullStore :=
  { branches := []
    selectedBranch := "main"
    isPulling := false
    isLoading := false
    error := none
    repoData := none }

/-- Outcome of a JavaScript `await`: either a value or a thrown error carrying
an optional `message` (absent or empty messages are falsy). -/
inductive JsResult (α : Type) where
  | ok (value : α)
  | thrown (message : Option String)

/-- A resolved `fetch` response: the `ok` status flag and the outcome of
`response.json()`, the body parsed as `α`. -/
structure HttpResponse (α : Type) where
  ok : Bool
  json : JsResult α

/-- JavaScript `m || fallback` on an error-message: `null`/`undefined` and the
empty string fall back. -/
def jsOrDefault (m : Option String) (fallback : String) : String :=
  match m with
  | none => fallback
  | some s => if s = "" then fallback else s

/-- fetchBranches (Pull_util.ts lines 28-50) as a transition on the store given
the transport outcome: on success, `set({ branches: data.branches })`, then the
first branch becomes selected when the list is nonempty and has neither `main`
nor `master`; any throw is caught and resets `branches` to `[]`. -/
def fetchBranches (s : PullStore) (r : JsResult (HttpResponse (List String))) : PullStore :=
  match r with
  | .ok ⟨_, .ok bs⟩ =>
    let s1 := { s with branches := bs }
    if bs.length > 0 ∧ "main" ∉ bs ∧ "master" ∉ bs then
      { s1 with selectedBranch := bs.headI }
    else s1
  | .ok ⟨_, .thrown _⟩ => { s with branches := [] }
  | .thrown _ => { s with branches := [] }

/-- The leading `set({ isLoading: true, error: null })` of fetchRepo
(Pull_util.ts line 57). -/
def fetchRepoStart (s : PullStore) : PullStore :=
  { s with isLoading := true, error := none }

/-- The completion of fetchRepo (Pull_util.ts lines 58-75): a parsed body is
stored unconditionally (the code never reads `response.ok`); a throw from
`fetch` or from `response.json()` is caught and recorded as
`error.message || 'Failed to fetch repository'`. -/
def fetchRepoComplete (s : PullStore) (r : JsResult (HttpResponse RepoData)) : PullStore :=
  match r with
  | .ok ⟨_, .ok data⟩ => { s with repoData := some data, isLoading := false }
  | .ok ⟨_, .thrown m⟩ =>
    { s with error := some (jsOrDefault m "Failed to fetch repository"), isLoading := false }
  | .thrown m =>
    { s with error := some (jsOrDefault m "Failed to fetch repository"), isLoading := false }

/-- fetchRepo (Pull_util.ts lines 55-76): start then completion. -/
def fetchRepo (s : PullStore) (r : JsResult (HttpResponse RepoData)) : PullStore :=
  fetchRepoComplete (fetchRepoStart s) r

/-- reset (Pull_util.ts line 77). -/
def reset (s : PullStore) : PullStore :=
  { s with isLoading := false, isPulling := false, error := none, repoData := none }

/-- Result of the synchronous phase of a pull attempt: the store state after
it, the body of the network request it issues (`none` when no request is
made), and the notifications shown to the user. -/
structure PullAttempt where
  state : PullStore
  request : Option (List FileInfo)
  toasts : List String

/-- The guard and request-issuing phase of pullFiles (Pull_util.ts lines
78-93): with no snapshot, reject with a toast and no state change; otherwise
set `isPulling`/clear `error` and issue the request with body
`{ files: repoData.contents }`. -/
def pullFilesStart (s : PullStore) : PullAttempt :=
  match s.repoData with
  | none =>
    { state := s, request := none, toasts := ["Please fetch repository info first"] }
  | some repoData =>
    { state := { s with isPulling := true, error := none }
      request := some repoData.contents
      toasts := [] }

/-- JavaScript falsiness of an optional string (`!file.parent_path`):
`null`/`undefined` and the empty string are falsy. -/
def jsFalsyOptStr : Option String → Bool
  | none => true
  | some s => s == ""

/-- The `allFiles` list computed by the RepoCard pull-button handler
(Pull_comp.tsx lines 250-253): flatten the roots (entries with falsy
`parent_path`) and keep those whose path is in the selection. -/
def repoCardAllFiles (contents : List FileInfo) (selectedFiles : List String) : List FileInfo :=
  ((contents.filter (fun file => jsFalsyOptStr file.parent_path)).flatMap getAllFiles).filter
    (fun file => selectedFiles.contains file.path)

/-- The RepoCard pull-button click handler (Pull_comp.tsx lines 248-262):
returns the argument handed to `onPullFiles` (`none` when the empty-selection
guard rejects and `onPullFiles` is never invoked) and the toasts emitted. -/
def repoCardPullClick (contents : List FileInfo) (selectedFiles : List String) :
    Option (List FileInfo) × List String :=
  let allFiles := repoCardAllFiles contents selectedFiles
  if allFiles.length = 0 then (none, ["Please select files to pull"])
  else (some allFiles, [])

/-- The displayed flattened file list before sorting (Pull_comp.tsx lines
231-232): `contents.flatMap(getAllFiles)`. -/
def displayedFiles (contents : List FileInfo) : List FileInfo :=
  contents.flatMap getAllFiles

/-- Concrete file entry used as a test fixture by witnesses and
counterexamples. -/
def fileA : FileInfo := .mk "a.ts" "src/utils/a.ts" "file" (some "urlA") none []

/-- Concrete snapshot fixture whose contents are the single root `fileA`. -/
def repoA : RepoData :=
  { name := "repo"
    full_name := "owner/repo"
    description := none
    stars := 1
    forks := 0
    language := some "TypeScript"
    owner_avatar := "avatar"
    html_url := "https://example.com/owner/repo"
    contents := [fileA]
    timestamp := none }

/-- Store fixture holding the snapshot `repoA`. -/
def storeWithRepoA : PullStore := { initialStore with repoData := some repoA }

end GithubPull

namespace GithubPull

/-! ### General facts about the stable-sort model -/

section SortInfra

variable {α : Type} {β : Type} (cmp : α → α → Int)

theorem mem_insertCmp {a x : α} : ∀ {l : List α}, x ∈ insertCmp cmp a l ↔ x = a ∨ x ∈ l
  | [] => by simp [insertCmp]
  | b :: bs => by
    by_cases hab : cmp a b ≤ 0
    · simp only [insertCmp, if_pos hab, List.mem_cons]
    · simp only [insertCmp, if_neg hab, List.mem_cons, mem_insertCmp]
      tauto

theorem filter_insertCmp_neg (p : α → Bool) {a : α} (hpa : p a = false) :
    ∀ (l : List α), (insertCmp cmp a l).filter p = l.filter p
  | [] => by simp [insertCmp, hpa]
  | b :: bs => by
    by_cases hab : cmp a b ≤ 0
    · simp [insertCmp, if_pos hab, List.filter_cons, hpa]
    · simp only [insertCmp, if_neg hab, List.filter_cons,
        filter_insertCmp_neg p hpa bs]

theorem filter_insertCmp_pos (p : α → Bool) {a : α} (hpa : p a = true) :
    ∀ (l : List α), (∀ b ∈ l, p b = true → cmp a b ≤ 0) →
      (insertCmp cmp a l).filter p = a :: l.filter p
  | [], _ => by simp [insertCmp, hpa]
  | b :: bs, hstop => by
    by_cases hab : cmp a b ≤ 0
    · simp [insertCmp, if_pos hab, List.filter_cons, hpa]
    · have hpb : p b = false := by
        cases hh : p b with
        | false => rfl
        | true => exact absurd (hstop b (List.mem_cons_self b bs) hh) hab
      simp only [insertCmp, if_neg hab, List.filter_cons, hpb, Bool.false_eq_true,
        if_false,
        filter_insertCmp_pos p hpa bs (fun c hc hpc => hstop c (List.mem_cons_of_mem b hc) hpc)]

theorem jsSort_filter_key (k : α → β) [DecidableEq β]
    (hk : ∀ a b, k a = k b → cmp a b ≤ 0) (k0 : β) :
    ∀ (l : List α),
      (jsSort cmp l).filter (fun x => k x = k0) = l.filter (fun x => k x = k0)
  | [] => rfl
  | a :: as => by
    by_cases hpa : k a = k0
    · rw [jsSort, filter_insertCmp_pos cmp _ (by simp [hpa]) _ ?stop,
        jsSort_filter_key k hk k0 as, List.filter_cons]
      · simp [hpa]
      case stop =>
        intro b _ hpb
        exact hk a b (by rw [hpa]; exact (of_decide_eq_true hpb).symm)
    · rw [jsSort, filter_insertCmp_neg cmp _ (by simp [hpa]),
        jsSort_filter_key k hk k0 as, List.filter_cons]
      simp [hpa]

theorem chain_insertCmp (htot : ∀ a b, cmp a b ≤ 0 ∨ cmp b a ≤ 0) (a : α) :
    ∀ (l : List α), l.Chain' (fun x y => cmp x y ≤ 0) →
      (insertCmp cmp a l).Chain' (fun x y => cmp x y ≤ 0)
  | [], _ => List.chain'_singleton a
  | b :: bs, hch => by
    by_cases hab : cmp a b ≤ 0
    · simp only [insertCmp, if_pos hab]
      exact hch.cons hab
    · simp only [insertCmp, if_neg hab]
      have hba : cmp b a ≤ 0 := (htot a b).resolve_left hab
      have htail := chain_insertCmp htot a bs (List.Chain'.tail hch)
      refine List.chain'_cons'.2 ⟨?_, htail⟩
      intro y hy
      cases bs with
      | nil =>
        simp only [insertCmp, List.head?_cons, Option.mem_def, Option.some.injEq] at hy
        subst hy
        exact hba
      | cons c cs =>
        by_cases hac : cmp a c ≤ 0
        · simp only [insertCmp, if_pos hac, List.head?_cons, Option.mem_def,
            Option.some.injEq] at hy
          subst hy
          exact hba
        · simp only [insertCmp, if_neg hac, List.head?_cons, Option.mem_def,
            Option.some.injEq] at hy
          subst hy
          exact (List.chain'_cons.1 hch).1

theorem chain_jsSort (htot : ∀ a b, cmp a b ≤ 0 ∨ cmp b a ≤ 0) :
    ∀ (l : List α), (jsSort cmp l).Chain' (fun x y => cmp x y ≤ 0)
  | [] => List.chain'_nil
  | a :: as => chain_insertCmp cmp htot a _ (chain_jsSort htot as)

theorem jsSort_of_chain :
    ∀ (l : List α), l.Chain' (fun x y => cmp x y ≤ 0) → jsSort cmp l = l
  | [], _ => rfl
  | a :: as, hch => by
    rw [jsSort, jsSort_of_chain as (List.Chain'.tail hch)]
    cases as with
    | nil => rfl
    | cons b bs =>
      simp only [insertCmp, if_pos (List.chain'_cons.1 hch).1]

theorem jsSort_idem (htot : ∀ a b, cmp a b ≤ 0 ∨ cmp b a ≤ 0) (l : List α) :
    jsSort cmp (jsSort cmp l) = jsSort cmp l :=
  jsSort_of_chain cmp _ (chain_jsSort cmp htot l)

end SortInfra

/-! ### Facts about the comparators of Pull_comp.tsx -/

theorem strCmpChars_refl : ∀ l, strCmpChars l l = 0
  | [] => rfl
  | a :: as => by simp [strCmpChars, lt_irrefl, strCmpChars_refl as]

theorem strCmpChars_swap : ∀ l1 l2, strCmpChars l1 l2 = -strCmpChars l2 l1
  | [], [] => rfl
  | [], _ :: _ => rfl
  | _ :: _, [] => rfl
  | a :: as, b :: bs => by
    simp only [strCmpChars]
    rcases lt_trichotomy a b with h | h | h
    · simp [h, not_lt.2 h.le, h.ne']
    · subst h
      simp [lt_irrefl, strCmpChars_swap as bs]
    · simp [h, not_lt.2 h.le, h.ne']

theorem localeCompare_self (s : String) : localeCompare s s = 0 :=
  strCmpChars_refl s.data

theorem localeCompare_add_swap (s t : String) :
    localeCompare s t + localeCompare t s = 0 := by
  unfold localeCompare
  rw [strCmpChars_swap]
  omega

theorem sortFilesCompare_eq_dir (cfg : SortConfig) (a b : FileInfo) :
    sortFilesCompare cfg a b =
      match cfg.direction with
      | .asc => localeCompare (sortKey cfg.column a) (sortKey cfg.column b)
      | .desc => -localeCompare (sortKey cfg.column a) (sortKey cfg.column b) := by
  obtain ⟨col, dir⟩ := cfg
  cases col <;> cases dir <;> rfl

theorem sortFilesCompare_key_eq {cfg : SortConfig} {a b : FileInfo}
    (h : sortKey cfg.column a = sortKey cfg.column b) :
    sortFilesCompare cfg a b = 0 := by
  rw [sortFilesCompare_eq_dir, h]
  cases cfg.direction <;> simp [localeCompare_self]

theorem sortFilesCompare_total (cfg : SortConfig) (a b : FileInfo) :
    sortFilesCompare cfg a b ≤ 0 ∨ sortFilesCompare cfg b a ≤ 0 := by
  rw [sortFilesCompare_eq_dir, sortFilesCompare_eq_dir]
  have h := localeCompare_add_swap (sortKey cfg.column a) (sortKey cfg.column b)
  cases cfg.direction <;> dsimp only <;> omega

theorem sortFiles_pair (cfg : SortConfig) (a b : FileInfo) :
    sortFiles [a, b] cfg = if sortFilesCompare cfg a b ≤ 0 then [a, b] else [b, a] := by
  simp only [sortFiles, jsSort, insertCmp]

theorem displayedCompare_le_iff (cfg : SortConfig) (a b : FileInfo) :
    displayedCompare cfg a b ≤ 0 ↔ sortFilesCompare cfg a b ≤ 0 := by
  unfold displayedCompare
  rw [sortFiles_pair]
  by_cases h : sortFilesCompare cfg a b ≤ 0
  · rw [if_pos h]
    simp [h]
  · rw [if_neg h]
    have hba : ¬ ([b, a].head? = some a) := by
      simp only [List.head?_cons, Option.some.injEq]
      intro hba
      subst hba
      exact h (le_of_eq (sortFilesCompare_key_eq rfl))
    rw [if_neg hba]
    simp [h]

theorem displayedCompare_key_eq {cfg : SortConfig} {a b : FileInfo}
    (h : sortKey cfg.column a = sortKey cfg.column b) :
    displayedCompare cfg a b ≤ 0 :=
  (displayedCompare_le_iff cfg a b).2 (le_of_eq (sortFilesCompare_key_eq h))

theorem displayedCompare_total (cfg : SortConfig) (a b : FileInfo) :
    displayedCompare cfg a b ≤ 0 ∨ displayedCompare cfg b a ≤ 0 := by
  rw [displayedCompare_le_iff, displayedCompare_le_iff]
  exact sortFilesCompare_total cfg a b

/-! ### Facts about the tree flattener -/

mutual
theorem getAllFiles_eq_filter :
    ∀ f : FileInfo, getAllFiles f = (preorderNodes f).filter (fun x => x.type == "file")
  | .mk n p t d pp c => by
    by_cases ht : t = "file"
    · simp [getAllFiles, preorderNodes, List.filter_cons, FileInfo.type, ht,
        getAllFilesList_eq_filter c]
    · simp [getAllFiles, preorderNodes, List.filter_cons, FileInfo.type, ht,
        getAllFilesList_eq_filter c]
theorem getAllFilesList_eq_filter :
    ∀ l : List FileInfo,
      getAllFilesList l = (preorderNodesList l).filter (fun x => x.type == "file")
  | [] => rfl
  | x :: xs => by
    simp [getAllFilesList, preorderNodesList, List.filter_append,
      getAllFiles_eq_filter x, getAllFilesList_eq_filter xs]
end

theorem getAllFilesList_eq_flatMap :
    ∀ l : List FileInfo, getAllFilesList l = l.flatMap getAllFiles
  | [] => rfl
  | x :: xs => by
    simp [getAllFilesList, getAllFilesList_eq_flatMap xs]

end GithubPull

namespace GithubPull

/-! ### Claim theorems -/

/-- C1, counterexample.  The claim states that the pullFiles request body
contains exactly the file entries whose paths are members of the current
SelectionSet, for every snapshot and selection state.  This is false: with
snapshot `repoA` present and an empty SelectionSet, the store's `pullFiles`
still issues a request whose body is the snapshot's full contents `[fileA]`,
an entry whose path is not selected. -/
theorem pullFiles_body_ignores_selection :
    (pullFilesStart storeWithRepoA).request = some [fileA]
      ∧ ([] : List String).contains fileA.path = false :=
  ⟨rfl, rfl⟩

/-- C1, amended.  The store's `pullFiles` request body is always the
snapshot's full contents list, independent of the SelectionSet; the
selection-exact list — exactly the flattened root entries whose paths are in
the SelectionSet — is computed by the RepoCard click handler and handed to its
`onPullFiles` callback instead. -/
theorem pullFiles_body_amended (s : PullStore) (rd : RepoData)
    (contents : List FileInfo) (sel : List String) (x : FileInfo) :
    (s.repoData = some rd → (pullFilesStart s).request = some rd.contents)
      ∧ (x ∈ repoCardAllFiles contents sel ↔
          x ∈ (contents.filter (fun f => jsFalsyOptStr f.parent_path)).flatMap getAllFiles
            ∧ sel.contains x.path = true) := by
  constructor
  · intro h
    simp [pullFilesStart, h]
  · exact List.mem_filter

/-- Witness for C1's amended theorem at the concrete snapshot `repoA` and the
selection holding exactly fileA's path. -/
theorem pullFiles_body_amended_witness :
    (pullFilesStart storeWithRepoA).request = some [fileA]
      ∧ fileA ∈ repoCardAllFiles [fileA] ["src/utils/a.ts"] := by
  constructor
  · exact (pullFiles_body_amended storeWithRepoA repoA [fileA] ["src/utils/a.ts"] fileA).1 rfl
  · exact (pullFiles_body_amended storeWithRepoA repoA [fileA] ["src/utils/a.ts"] fileA).2.mpr
      ⟨by decide, by decide⟩

/-- C2.  A pull attempted with no snapshot is rejected by the store's
`pullFiles` guard synchronously: no network request, a transient toast, and
the state (every field) unchanged.  A pull attempted with an empty
SelectionSet is rejected by the RepoCard click handler: `onPullFiles` is never
invoked (so no network request and no store mutation) and a transient warning
toast is shown. -/
theorem pull_rejected_without_network (s : PullStore) (contents : List FileInfo)
    (sel : List String) :
    (s.repoData = none →
        (pullFilesStart s).state = s
          ∧ (pullFilesStart s).request = none
          ∧ (pullFilesStart s).toasts = ["Please fetch repository info first"])
      ∧ (sel = [] →
          repoCardPullClick contents sel = (none, ["Please select files to pull"])) := by
  constructor
  · intro h
    simp [pullFilesStart, h]
  · rintro rfl
    have hempty : repoCardAllFiles contents [] = [] := by
      apply List.filter_eq_nil_iff.2
      intro x _
      simp [List.contains]
    simp [repoCardPullClick, hempty]

/-- Witness for C2 at the initial store (no snapshot) and at a nonempty tree
with the empty selection. -/
theorem pull_rejected_without_network_witness :
    (pullFilesStart initialStore).request = none
      ∧ repoCardPullClick [fileA] [] = (none, ["Please select files to pull"]) :=
  ⟨((pull_rejected_without_network initialStore [fileA] []).1 rfl).2.1,
   (pull_rejected_without_network initialStore [fileA] []).2 rfl⟩

/-- C3.  Flattening the roots with `getAllFiles` yields exactly the
descendants whose kind is `file`, in pre-order traversal (the pre-order node
sequence filtered to `file`-kind nodes), and every produced entry is of kind
`file` (hence no `directory` node is produced). -/
theorem getAllFiles_preorder_files (roots : List FileInfo) :
    roots.flatMap getAllFiles
        = (preorderNodesList roots).filter (fun f => f.type == "file")
      ∧ (roots.flatMap getAllFiles).all (fun f => f.type == "file") = true := by
  rw [← getAllFilesList_eq_flatMap]
  refine ⟨getAllFilesList_eq_filter roots, ?_⟩
  rw [getAllFilesList_eq_filter roots, List.all_eq_true]
  intro x hx
  exact (List.mem_filter.1 hx).2

/-- C4.  `getFileCategory` is the first-match evaluation of the fixed
priority table of substring containment tests (`"/apis/"` → backend,
`"/components/"` → component, `"/utils/"` → util, `"/pages/"` → page,
default other), with each rule reached only when all earlier rules failed. -/
theorem getFileCategory_priority (p : String) :
    getFileCategory p = firstMatchCategory p
      ∧ (jsIncludes p "/apis/" = true → getFileCategory p = "backend")
      ∧ (jsIncludes p "/apis/" = false → jsIncludes p "/components/" = true →
          getFileCategory p = "component")
      ∧ (jsIncludes p "/apis/" = false → jsIncludes p "/components/" = false →
          jsIncludes p "/utils/" = true → getFileCategory p = "util")
      ∧ (jsIncludes p "/apis/" = false → jsIncludes p "/components/" = false →
          jsIncludes p "/utils/" = false → jsIncludes p "/pages/" = true →
          getFileCategory p = "page")
      ∧ (jsIncludes p "/apis/" = false → jsIncludes p "/components/" = false →
          jsIncludes p "/utils/" = false → jsIncludes p "/pages/" = false →
          getFileCategory p = "other") := by
  refine ⟨?_, ?_, ?_, ?_, ?_, ?_⟩
  · unfold getFileCategory firstMatchCategory categoryRules
    cases h1 : jsIncludes p "/apis/" <;> cases h2 : jsIncludes p "/components/" <;>
      cases h3 : jsIncludes p "/utils/" <;> cases h4 : jsIncludes p "/pages/" <;>
      simp [List.find?, h1, h2, h3, h4]
  · intro h1
    simp [getFileCategory, h1]
  · intro h1 h2
    simp [getFileCategory, h1, h2]
  · intro h1 h2 h3
    simp [getFileCategory, h1, h2, h3]
  · intro h1 h2 h3 h4
    simp [getFileCategory, h1, h2, h3, h4]
  · intro h1 h2 h3 h4
    simp [getFileCategory, h1, h2, h3, h4]

/-- Witness for C4 at the spec's own example paths. -/
theorem getFileCategory_priority_witness :
    getFileCategory "src/utils/a.ts" = "util"
      ∧ getFileCategory "src/apis/b.ts" = "backend" :=
  ⟨(getFileCategory_priority "src/utils/a.ts").2.2.2.1 (by decide) (by decide) (by decide),
   (getFileCategory_priority "src/apis/b.ts").2.1 (by decide)⟩

/-- C5.  Sorting is stable for every input list, column and direction:
filtering to the elements with any fixed sort key commutes with the sort, for
`sortFiles` and for the pairwise-comparator ordering applied to the displayed
flattened file list. -/
theorem sorting_stable (files contents : List FileInfo) (cfg : SortConfig)
    (k0 : String) :
    (sortFiles files cfg).filter (fun f => sortKey cfg.column f = k0)
        = files.filter (fun f => sortKey cfg.column f = k0)
      ∧ (displayedSort (displayedFiles contents) cfg).filter
            (fun f => sortKey cfg.column f = k0)
          = (displayedFiles contents).filter (fun f => sortKey cfg.column f = k0) :=
  ⟨jsSort_filter_key (sortFilesCompare cfg) (sortKey cfg.column)
      (fun _ _ h => le_of_eq (sortFilesCompare_key_eq h)) k0 files,
   jsSort_filter_key (displayedCompare cfg) (sortKey cfg.column)
      (fun _ _ h => displayedCompare_key_eq h) k0 (displayedFiles contents)⟩

/-- C6.  Sorting is idempotent for every column (ascending): re-sorting an
already-sorted list is the identity, for `sortFiles` and for the
pairwise-comparator ordering used to render the displayed list. -/
theorem sorting_idempotent (files contents : List FileInfo) (c : SortColumn) :
    sortFiles (sortFiles files ⟨c, .asc⟩) ⟨c, .asc⟩ = sortFiles files ⟨c, .asc⟩
      ∧ displayedSort (displayedSort (displayedFiles contents) ⟨c, .asc⟩) ⟨c, .asc⟩
          = displayedSort (displayedFiles contents) ⟨c, .asc⟩ :=
  ⟨jsSort_idem (sortFilesCompare ⟨c, .asc⟩) (sortFilesCompare_total ⟨c, .asc⟩) files,
   jsSort_idem (displayedCompare ⟨c, .asc⟩) (displayedCompare_total ⟨c, .asc⟩)
     (displayedFiles contents)⟩

/-- C7.  After `fetchBranches` completes: on success `branches` equals the
returned list; if the returned list is nonempty and has neither `main` nor
`master`, `selectedBranch` becomes its first element, and if `main` or
`master` is present the prior value is retained; on failure (a throw at
either stage) `branches` is reset to empty and `selectedBranch` is
unchanged. -/
theorem fetchBranches_spec (s : PullStore) (bs : List String) (b : Bool)
    (m : Option String) :
    ((fetchBranches s (.ok ⟨b, .ok bs⟩)).branches = bs)
      ∧ (bs ≠ [] → "main" ∉ bs → "master" ∉ bs →
          (fetchBranches s (.ok ⟨b, .ok bs⟩)).selectedBranch = bs.headI)
      ∧ (("main" ∈ bs ∨ "master" ∈ bs) →
          (fetchBranches s (.ok ⟨b, .ok bs⟩)).selectedBranch = s.selectedBranch)
      ∧ ((fetchBranches s (.thrown m)).branches = []
          ∧ (fetchBranches s (.thrown m)).selectedBranch = s.selectedBranch)
      ∧ ((fetchBranches s (.ok ⟨b, .thrown m⟩)).branches = []
          ∧ (fetchBranches s (.ok ⟨b, .thrown m⟩)).selectedBranch = s.selectedBranch) := by
  refine ⟨?_, ?_, ?_, ⟨rfl, rfl⟩, ⟨rfl, rfl⟩⟩
  · simp only [fetchBranches]
    split <;> rfl
  · intro h1 h2 h3
    simp only [fetchBranches]
    rw [if_pos ⟨List.length_pos.2 h1, h2, h3⟩]
  · intro h
    simp only [fetchBranches]
    rw [if_neg]
    rintro ⟨_, h2, h3⟩
    rcases h with h | h
    · exact h2 h
    · exact h3 h

/-- Witness for C7 at the spec's example branch lists. -/
theorem fetchBranches_spec_witness :
    (fetchBranches initialStore (.ok ⟨true, .ok ["dev", "feature-x"]⟩)).selectedBranch = "dev"
      ∧ (fetchBranches initialStore (.ok ⟨true, .ok ["main", "dev"]⟩)).selectedBranch = "main" :=
  ⟨(fetchBranches_spec initialStore ["dev", "feature-x"] true none).2.1
      (by decide) (by decide) (by decide),
   (fetchBranches_spec initialStore ["main", "dev"] true none).2.2.1 (Or.inl (by decide))⟩

/-- C8.  Whenever `fetchRepo` fails — the request or the body parse throws —
for every prior state: `error` is set to the thrown message, or to the generic
fallback when the message is absent (or empty, which JavaScript `||`
treats the same), `isLoading` is set to false, and `repoData` keeps its
previous value. -/
theorem fetchRepo_failure_spec (s : PullStore) (m : Option String) (b : Bool) :
    ((∀ msg, m = some msg → msg ≠ "" → (fetchRepo s (.thrown m)).error = some msg)
      ∧ (m = none → (fetchRepo s (.thrown m)).error = some "Failed to fetch repository")
      ∧ (fetchRepo s (.thrown m)).isLoading = false
      ∧ (fetchRepo s (.thrown m)).repoData = s.repoData)
    ∧ ((fetchRepo s (.ok ⟨b, .thrown m⟩)).error
          = some (jsOrDefault m "Failed to fetch repository")
      ∧ (fetchRepo s (.ok ⟨b, .thrown m⟩)).isLoading = false
      ∧ (fetchRepo s (.ok ⟨b, .thrown m⟩)).repoData = s.repoData) := by
  refine ⟨⟨?_, ?_, rfl, rfl⟩, rfl, rfl, rfl⟩
  · rintro msg rfl hne
    simp [fetchRepo, fetchRepoComplete, fetchRepoStart, jsOrDefault, hne]
  · rintro rfl
    rfl

/-- Witness for C8: a failure with message "boom" over a state already
holding the snapshot `repoA`. -/
theorem fetchRepo_failure_spec_witness :
    (fetchRepo storeWithRepoA (.thrown (some "boom"))).error = some "boom"
      ∧ (fetchRepo storeWithRepoA (.thrown (some "boom"))).repoData = some repoA :=
  ⟨(fetchRepo_failure_spec storeWithRepoA (some "boom") true).1.1 "boom" rfl (by decide),
   (fetchRepo_failure_spec storeWithRepoA (some "boom") true).1.2.2.2⟩

/-- C9.  `reset`, from any state, clears `isLoading`, `isPulling`, `error`
and `repoData` to their initial values and leaves `branches` and
`selectedBranch` unchanged. -/
theorem reset_spec (s : PullStore) :
    (reset s).isLoading = false
      ∧ (reset s).isPulling = false
      ∧ (reset s).error = none
      ∧ (reset s).repoData = none
      ∧ (reset s).branches = s.branches
      ∧ (reset s).selectedBranch = s.selectedBranch :=
  ⟨rfl, rfl, rfl, rfl, rfl, rfl⟩

/-- C10.  For every transport response whose body parses successfully,
`fetchRepo` stores the parsed body as `repoData` and sets `isLoading` false
regardless of the response's HTTP `ok` status, leaving `error` none; and the
error branch is reached only when the request or the body parse throws. -/
theorem fetchRepo_ignores_status (s : PullStore) (b : Bool) (d : RepoData)
    (r : JsResult (HttpResponse RepoData)) :
    ((fetchRepo s (.ok ⟨b, .ok d⟩)).repoData = some d
      ∧ (fetchRepo s (.ok ⟨b, .ok d⟩)).isLoading = false
      ∧ (fetchRepo s (.ok ⟨b, .ok d⟩)).error = none)
    ∧ ((fetchRepo s r).error.isSome = true → ∀ b' d', r ≠ .ok ⟨b', .ok d'⟩) := by
  refine ⟨⟨rfl, rfl, rfl⟩, ?_⟩
  intro herr b' d' hr
  subst hr
  simp [fetchRepo, fetchRepoComplete, fetchRepoStart] at herr

/-- Witness for C10: an error-status (`ok := false`) response with a parsed
body is stored, and a thrown request is not a parsed-body response. -/
theorem fetchRepo_ignores_status_witness :
    (fetchRepo initialStore (.ok ⟨false, .ok repoA⟩)).repoData = some repoA
      ∧ ((.thrown (some "x") : JsResult (HttpResponse RepoData)) ≠ .ok ⟨true, .ok repoA⟩) :=
  ⟨(fetchRepo_ignores_status initialStore false repoA (.thrown (some "x"))).1.1,
   (fetchRepo_ignores_status initialStore false repoA (.thrown (some "x"))).2 rfl true repoA⟩

end GithubPull
